import Mathlib

/-!
Verification of the lookup-padding circuit (`src/lookup_padding.rs`).

The circuit declares one advice column `a` (values), one complex selector `s`,
one fixed lookup table column `t1` and one further advice column `t2` used as a
live ("shadow") reference column.  `configure` registers a single `lookup_any`
argument with the blended input expression `s * a + (1 - s) * 1` against the
current-rotation query of `t2`.  `assign` enables the selector and writes the
input values on rows `0..len`, writes `1` at row `0` and `i` at rows `1..10`
of `t2`, and writes the same sequence into the fixed table `t1`.

The constraint-system and trace-writer backends (the `halo2` library) are not
part of the repository; they are modelled from the spec: columns and selectors
are numbered handles, a trace is a partial assignment of cells with a row
capacity, unassigned cells read as the field's zero element, and the mock
checker accepts a lookup argument at a row when the input expression's value
at that row equals the table expression's value at some row of the trace.
-/

namespace LookupPadding

/-- Handle for an advice column, as produced by `ConstraintSystem::advice_column`. -/
structure AdviceColumn where
  index : Nat
deriving DecidableEq, Repr

/-- Handle for a (complex) selector, as produced by `ConstraintSystem::complex_selector`. -/
structure Selector where
  index : Nat
deriving DecidableEq, Repr

/-- Handle for a fixed lookup table column, as produced by `ConstraintSystem::lookup_table_column`. -/
structure TableColumn where
  index : Nat
deriving DecidableEq, Repr

/-- The fragment of `halo2`'s `Expression` tree used by this circuit:
constants, selector queries, advice queries and fixed-table queries at a
rotation, negation, sums and products. -/
inductive Expression (F : Type) where
  | Constant : F → Expression F
  | Selector : LookupPadding.Selector → Expression F
  | Advice : AdviceColumn → Int → Expression F
  | Fixed : TableColumn → Int → Expression F
  | Negated : Expression F → Expression F
  | Sum : Expression F → Expression F → Expression F
  | Product : Expression F → Expression F → Expression F
deriving DecidableEq

instance {F : Type} : Add (Expression F) := ⟨Expression.Sum⟩

instance {F : Type} : Mul (Expression F) := ⟨Expression.Product⟩

instance {F : Type} : Sub (Expression F) := ⟨fun x y => Expression.Sum x (Expression.Negated y)⟩

/-- One registered lookup argument: a name and input/table expression pairs. -/
structure Lookup (F : Type) where
  name : String
  pairs : List (Expression F × Expression F)
deriving DecidableEq

/-- Modelled from the spec: the consumed constraint-system handle.  It hands
out numbered column/selector/table handles and records equality-enabled
columns and registered lookup arguments. -/
structure ConstraintSystem (F : Type) where
  num_advice_columns : Nat
  num_selectors : Nat
  num_table_columns : Nat
  equality_columns : List AdviceColumn
  lookups : List (Lookup F)
deriving DecidableEq

def ConstraintSystem.empty (F : Type) : ConstraintSystem F :=
  ⟨0, 0, 0, [], []⟩

def ConstraintSystem.advice_column {F : Type} (cs : ConstraintSystem F) :
    AdviceColumn × ConstraintSystem F :=
  (⟨cs.num_advice_columns⟩, { cs with num_advice_columns := cs.num_advice_columns + 1 })

def ConstraintSystem.complex_selector {F : Type} (cs : ConstraintSystem F) :
    Selector × ConstraintSystem F :=
  (⟨cs.num_selectors⟩, { cs with num_selectors := cs.num_selectors + 1 })

def ConstraintSystem.lookup_table_column {F : Type} (cs : ConstraintSystem F) :
    TableColumn × ConstraintSystem F :=
  (⟨cs.num_table_columns⟩, { cs with num_table_columns := cs.num_table_columns + 1 })

def ConstraintSystem.enable_equality {F : Type} (cs : ConstraintSystem F) (c : AdviceColumn) :
    ConstraintSystem F :=
  { cs with equality_columns := cs.equality_columns ++ [c] }

def ConstraintSystem.lookup_any {F : Type} (cs : ConstraintSystem F) (n : String)
    (pairs : List (Expression F × Expression F)) : ConstraintSystem F :=
  { cs with lookups := cs.lookups ++ [⟨n, pairs⟩] }

/-- The `LookupConfig` struct of the source: value column `a`, selector `s`,
fixed table `t1`, shadow reference column `t2`. -/
structure LookupConfig where
  a : AdviceColumn
  s : Selector
  t1 : TableColumn
  t2 : AdviceColumn
deriving DecidableEq, Repr

/-- `LookupChip::configure`, translated from the source.  It allocates `a`,
`s`, `t1`, `t2`, enables equality on `a`, and registers the single
`lookup_any` argument `(s * a + (1 - s) * 1, t2 @ cur)`.  The commented-out
`lookup` against the fixed table `t1` is not registered. -/
def LookupChip.configure {F : Type} [CommRing F] (meta0 : ConstraintSystem F) :
    LookupConfig × ConstraintSystem F :=
  let p1 := meta0.advice_column
  let a := p1.1
  let p2 := p1.2.complex_selector
  let s := p2.1
  let p3 := p2.2.lookup_table_column
  let t1 := p3.1
  let p4 := p3.2.advice_column
  let t2 := p4.1
  let meta5 := p4.2.enable_equality a
  let one : Expression F := Expression.Constant 1
  let cur_a : Expression F := Expression.Advice a 0
  let table : Expression F := Expression.Advice t2 0
  let sq : Expression F := Expression.Selector s
  let meta6 := meta5.lookup_any "lookup_any" [(sq * cur_a + (one - sq) * one, table)]
  (⟨a, s, t1, t2⟩, meta6)

/-- The assignment error surfaced by the trace-writer backend. -/
inductive Error where
  | CapacityExceeded
deriving DecidableEq, Repr

/-- Modelled from the spec: the consumed trace-writer handle.  A trace holds
a row capacity and partial per-column cell assignments; writes beyond the
capacity fail with `CapacityExceeded`. -/
structure Backend (F : Type) where
  cap : Nat
  advice : Nat → Nat → Option F
  selectors : Nat → Nat → Bool
  tables : Nat → Nat → Option F

def Backend.empty (F : Type) (cap : Nat) : Backend F :=
  ⟨cap, fun _ _ => none, fun _ _ => false, fun _ _ => none⟩

/-- `Selector::enable`: turn the selector on at a row of the trace. -/
def Selector.enable {F : Type} (s : Selector) (b : Backend F) (row : Nat) :
    Except Error (Backend F) :=
  if row < b.cap then
    Except.ok { b with
      selectors := fun si r => if si = s.index ∧ r = row then true else b.selectors si r }
  else
    Except.error Error.CapacityExceeded

/-- `Region::assign_advice`: write a value into an advice cell. -/
def Backend.assign_advice {F : Type} (b : Backend F) (c : AdviceColumn) (row : Nat) (v : F) :
    Except Error (Backend F) :=
  if row < b.cap then
    Except.ok { b with
      advice := fun ci r => if ci = c.index ∧ r = row then some v else b.advice ci r }
  else
    Except.error Error.CapacityExceeded

/-- `Table::assign_cell`: write a value into a fixed-table cell. -/
def Backend.assign_cell {F : Type} (b : Backend F) (t : TableColumn) (row : Nat) (v : F) :
    Except Error (Backend F) :=
  if row < b.cap then
    Except.ok { b with
      tables := fun ti r => if ti = t.index ∧ r = row then some v else b.tables ti r }
  else
    Except.error Error.CapacityExceeded

/-- Run a per-row region body over a list of row indices, threading the trace
and propagating the first error (a Rust `for` loop of fallible writes). -/
def regionFor {F : Type} (f : Backend F → Nat → Except Error (Backend F)) :
    Backend F → List Nat → Except Error (Backend F)
  | b, [] => Except.ok b
  | b, i :: is => Except.bind (f b i) fun b2 => regionFor f b2 is

/-- Body of the `"a,b"` region loop: enable the selector at row `i` and write
`a_arr[i]` into column `a` at row `i`. -/
def valuesBody {F : Type} [CommRing F] (cfg : LookupConfig) (a_arr : List F) (b : Backend F) (i : Nat) :
    Except Error (Backend F) :=
  Except.bind (cfg.s.enable b i) fun b1 => b1.assign_advice cfg.a i (a_arr.getD i 0)

/-- Body of the `"t2"` region loop: write `F::from(i)` into `t2` at row `i`. -/
def t2Body {F : Type} [CommRing F] (cfg : LookupConfig) (b : Backend F) (i : Nat) :
    Except Error (Backend F) :=
  b.assign_advice cfg.t2 i ((i : Nat) : F)

/-- Body of the `"t1"` table loop: write `F::from(i)` into `t1` at row `i`. -/
def t1Body {F : Type} [CommRing F] (cfg : LookupConfig) (b : Backend F) (i : Nat) :
    Except Error (Backend F) :=
  b.assign_cell cfg.t1 i ((i : Nat) : F)

/-- `LookupChip::assign`, translated from the source.  Region `"a,b"` writes
the input values and the selector on rows `0..len`; region `"t2"` writes `1`
at row `0` and `i` at rows `1..10` of the shadow column; the `"t1"` table is
populated with the same sequence.  Under the single-pass floor planner the
`"a,b"` region and the `"t2"` region both start at absolute row `0`, since
they use disjoint columns. -/
def LookupChip.assign {F : Type} [CommRing F] (cfg : LookupConfig) (b0 : Backend F)
    (a_arr : List F) : Except Error (Backend F) :=
  Except.bind (regionFor (valuesBody cfg a_arr) b0 (List.range a_arr.length)) fun b1 =>
  Except.bind (b1.assign_advice cfg.t2 0 1) fun b2 =>
  Except.bind (regionFor (t2Body cfg) b2 (List.range' 1 9)) fun b3 =>
  Except.bind (b3.assign_cell cfg.t1 0 1) fun b4 =>
  Except.bind (regionFor (t1Body cfg) b4 (List.range' 1 9)) fun b5 =>
  Except.ok b5

/-- Reading an advice cell during checking: unassigned cells read as zero. -/
def Backend.adviceVal {F : Type} [CommRing F] (b : Backend F) (c r : Nat) : F :=
  (b.advice c r).getD 0

/-- Reading a selector during checking: `1` when enabled, else `0`. -/
def Backend.selectorVal {F : Type} [CommRing F] (b : Backend F) (s r : Nat) : F :=
  if b.selectors s r then 1 else 0

/-- Reading a fixed-table cell during checking: unassigned cells read as zero. -/
def Backend.tableVal {F : Type} [CommRing F] (b : Backend F) (t r : Nat) : F :=
  (b.tables t r).getD 0

/-- Effective row of a query at rotation `rot` from `row`, wrapping modulo the
trace size `n`. -/
def rotRow (n row : Nat) (rot : Int) : Nat :=
  (((row : Int) + rot) % (n : Int)).toNat

/-- Evaluate an expression against a trace at a row (trace size `n`). -/
def Expression.eval {F : Type} [CommRing F] (b : Backend F) (n row : Nat) :
    Expression F → F
  | Expression.Constant c => c
  | Expression.Selector s => b.selectorVal s.index row
  | Expression.Advice c rot => b.adviceVal c.index (rotRow n row rot)
  | Expression.Fixed t rot => b.tableVal t.index (rotRow n row rot)
  | Expression.Negated e => -(e.eval b n row)
  | Expression.Sum x y => x.eval b n row + y.eval b n row
  | Expression.Product x y => x.eval b n row * y.eval b n row

/-- Modelled from the spec: the mock checker accepts a lookup argument at a
row when the tuple of input-expression values at that row equals the tuple of
table-expression values at some row of the trace. -/
def lookupSatAt {F : Type} [CommRing F] [DecidableEq F] (b : Backend F) (n : Nat)
    (l : Lookup F) (row : Nat) : Bool :=
  (List.range n).any fun r2 =>
    l.pairs.all fun p => decide (Expression.eval b n row p.1 = Expression.eval b n r2 p.2)

/-- Modelled from the spec: the satisfiability check evaluates every
registered lookup argument at every row of the trace. -/
def lookupsSat {F : Type} [CommRing F] [DecidableEq F] (b : Backend F) (n : Nat)
    (cs : ConstraintSystem F) : Bool :=
  cs.lookups.all fun l => (List.range n).all fun row => lookupSatAt b n l row

/-- The configuration produced by `LookupChip::configure` from the empty
constraint system (what `MockProver::run` uses). -/
def theConfig (F : Type) [CommRing F] : LookupConfig :=
  (LookupChip.configure (ConstraintSystem.empty F)).1

/-- The constraint system produced by `LookupChip::configure` from the empty
constraint system. -/
def theCS (F : Type) [CommRing F] : ConstraintSystem F :=
  (LookupChip.configure (ConstraintSystem.empty F)).2

/-- Configure, synthesize into a fresh trace of capacity `cap`, and run the
satisfiability check over `n` rows. -/
def runWith {F : Type} [CommRing F] [DecidableEq F] (cap n : Nat) (vals : List F) :
    Except Error Bool :=
  match LookupChip.assign (theConfig F) (Backend.empty F cap) vals with
  | Except.error e => Except.error e
  | Except.ok b => Except.ok (lookupsSat b n (theCS F))

/-- `MockProver::run` at capacity parameter `k`: a `2^k`-row trace. -/
def mockRun {F : Type} [CommRing F] [DecidableEq F] (k : Nat) (vals : List F) :
    Except Error Bool :=
  runWith (2 ^ k) (2 ^ k) vals

/-- Whether all registered lookup arguments hold at one given row of the
trace built from `vals` (a per-row view of the checker's verdict). -/
def rowSatisfied {F : Type} [CommRing F] [DecidableEq F] (cap n : Nat) (vals : List F)
    (row : Nat) : Bool :=
  match LookupChip.assign (theConfig F) (Backend.empty F cap) vals with
  | Except.error _ => false
  | Except.ok b => (theCS F).lookups.all fun l => lookupSatAt b n l row

/-- The value the checker reads from the shadow reference column `t2` at a
row of the trace built from `vals`. -/
def refColVal {F : Type} [CommRing F] [DecidableEq F] (cap : Nat) (vals : List F)
    (r : Nat) : F :=
  match LookupChip.assign (theConfig F) (Backend.empty F cap) vals with
  | Except.error _ => 0
  | Except.ok b => b.adviceVal (theConfig F).t2.index r

/-- The order of the scalar field of BN254 (`bn256::Fr` in the test). -/
def bnR : Nat :=
  21888242871839275222246405745257275088548364400416034343698204186575808495617

/-- The concrete field of the test: `bn256::Fr`. -/
abbrev Fp := ZMod bnR

/-- The input of the source test `test_lookup_on_different_rows`. -/
def c1Input : List Fp := [0, 1, 2, 3]

deriving instance DecidableEq for Except

/-- The selector value at a row of the trace built from `vals`. -/
def selAt {F : Type} [CommRing F] (cap : Nat) (vals : List F) (row : Nat) : Bool :=
  match LookupChip.assign (theConfig F) (Backend.empty F cap) vals with
  | Except.error _ => false
  | Except.ok b => b.selectors (theConfig F).s.index row

/-- The value the checker reads from the value column `a` at a row of the
trace built from `vals`. -/
def valAt {F : Type} [CommRing F] (cap : Nat) (vals : List F) (row : Nat) : F :=
  match LookupChip.assign (theConfig F) (Backend.empty F cap) vals with
  | Except.error _ => 0
  | Except.ok b => b.adviceVal (theConfig F).a.index row

/-- The input expression of the registered `lookup_any` argument, as built by
`configure`: `s * a + (1 - s) * 1` over the expression tree. -/
def blendExpr (F : Type) [CommRing F] : Expression F :=
  Expression.Sum
    (Expression.Product (Expression.Selector ⟨0⟩) (Expression.Advice ⟨0⟩ 0))
    (Expression.Product
      (Expression.Sum (Expression.Constant 1) (Expression.Negated (Expression.Selector ⟨0⟩)))
      (Expression.Constant 1))

/-- The table expression of the registered `lookup_any` argument: the shadow
column `t2` queried at the current rotation. -/
def tableExpr (F : Type) : Expression F :=
  Expression.Advice ⟨1⟩ 0

/-- Whether an expression queries a fixed lookup-table column anywhere. -/
def Expression.referencesFixedTable {F : Type} : Expression F → Bool
  | Expression.Fixed _ _ => true
  | Expression.Negated e => e.referencesFixedTable
  | Expression.Sum x y => x.referencesFixedTable || y.referencesFixedTable
  | Expression.Product x y => x.referencesFixedTable || y.referencesFixedTable
  | _ => false

/-- Replace the whole value column of a trace by an arbitrary content. -/
def withValues {F : Type} (cfg : LookupConfig) (b : Backend F) (f : Nat → Option F) :
    Backend F :=
  { b with advice := fun c r => if c = cfg.a.index then f r else b.advice c r }

theorem exceptBind_ok {ε α β : Type} (a : α) (f : α → Except ε β) :
    Except.bind (Except.ok a) f = f a := rfl

theorem exceptBind_err {ε α β : Type} (e : ε) (f : α → Except ε β) :
    Except.bind (Except.error e) f = Except.error e := rfl

theorem theConfig_eq (F : Type) [CommRing F] : theConfig F = ⟨⟨0⟩, ⟨0⟩, ⟨0⟩, ⟨1⟩⟩ := rfl

theorem theCS_lookups (F : Type) [CommRing F] :
    (theCS F).lookups = [⟨"lookup_any", [(blendExpr F, tableExpr F)]⟩] := rfl

theorem Selector.enable_ok {F : Type} (s : Selector) (b : Backend F) (row : Nat)
    (h : row < b.cap) :
    s.enable b row = Except.ok { b with
      selectors := fun si r => if si = s.index ∧ r = row then true else b.selectors si r } := by
  unfold Selector.enable
  rw [if_pos h]

theorem Selector.enable_err {F : Type} (s : Selector) (b : Backend F) (row : Nat)
    (h : ¬row < b.cap) :
    s.enable b row = Except.error Error.CapacityExceeded := by
  unfold Selector.enable
  rw [if_neg h]

theorem Backend.assign_advice_ok {F : Type} (b : Backend F) (c : AdviceColumn) (row : Nat)
    (v : F) (h : row < b.cap) :
    b.assign_advice c row v = Except.ok { b with
      advice := fun ci r => if ci = c.index ∧ r = row then some v else b.advice ci r } := by
  unfold Backend.assign_advice
  rw [if_pos h]

theorem Backend.assign_cell_ok {F : Type} (b : Backend F) (t : TableColumn) (row : Nat)
    (v : F) (h : row < b.cap) :
    b.assign_cell t row v = Except.ok { b with
      tables := fun ti r => if ti = t.index ∧ r = row then some v else b.tables ti r } := by
  unfold Backend.assign_cell
  rw [if_pos h]

/-- Characterization of the `"a,b"` region loop: when every processed row is
within capacity it succeeds, leaves capacity and tables untouched, and writes
exactly the selector bits and input values at the processed rows. -/
theorem regionFor_values_ok {F : Type} [CommRing F] (cfg : LookupConfig) (vals : List F) :
    ∀ (rows : List Nat) (b : Backend F), (∀ i ∈ rows, i < b.cap) →
    ∃ b2, regionFor (valuesBody cfg vals) b rows = Except.ok b2 ∧
      b2.cap = b.cap ∧ b2.tables = b.tables ∧
      (∀ c r, b2.advice c r =
        if c = cfg.a.index ∧ r ∈ rows then some (vals.getD r 0) else b.advice c r) ∧
      (∀ s r, b2.selectors s r =
        if s = cfg.s.index ∧ r ∈ rows then true else b.selectors s r) := by
  intro rows
  induction rows with
  | nil =>
    intro b _
    exact ⟨b, rfl, rfl, rfl, by intro c r; simp, by intro s r; simp⟩
  | cons i is ih =>
    intro b h
    have hi : i < b.cap := h i (List.mem_cons_self i is)
    have hstep : valuesBody cfg vals b i = Except.ok
        { b with
          advice := fun ci r =>
            if ci = cfg.a.index ∧ r = i then some (vals.getD i 0) else b.advice ci r,
          selectors := fun si r =>
            if si = cfg.s.index ∧ r = i then true else b.selectors si r } := by
      unfold valuesBody
      rw [Selector.enable_ok cfg.s b i hi, exceptBind_ok]
      exact Backend.assign_advice_ok _ cfg.a i _ hi
    obtain ⟨b2, h2, hcap2, htab2, hadv2, hsel2⟩ :=
      ih { b with
          advice := fun ci r =>
            if ci = cfg.a.index ∧ r = i then some (vals.getD i 0) else b.advice ci r,
          selectors := fun si r =>
            if si = cfg.s.index ∧ r = i then true else b.selectors si r }
        (fun j hj => h j (List.mem_cons_of_mem i hj))
    refine ⟨b2, ?_, hcap2, htab2, ?_, ?_⟩
    · show regionFor (valuesBody cfg vals) b (i :: is) = Except.ok b2
      rw [regionFor, hstep, exceptBind_ok]
      exact h2
    · intro c r
      rw [hadv2 c r]
      by_cases hc : c = cfg.a.index
      · by_cases hris : r ∈ is
        · simp [hc, hris, List.mem_cons]
        · by_cases hri : r = i
          · subst hri
            simp [hc, hris, List.mem_cons]
          · simp [hc, hris, hri, List.mem_cons]
      · simp [hc, List.mem_cons]
    · intro s r
      rw [hsel2 s r]
      by_cases hs : s = cfg.s.index
      · by_cases hris : r ∈ is
        · simp [hs, hris, List.mem_cons]
        · by_cases hri : r = i
          · subst hri
            simp [hs, hris, List.mem_cons]
          · simp [hs, hris, hri, List.mem_cons]
      · simp [hs, List.mem_cons]

/-- Characterization of the `"t2"` region loop: it writes `F::from(i)` into
the shadow column at each processed row and touches nothing else. -/
theorem regionFor_t2_ok {F : Type} [CommRing F] (cfg : LookupConfig) :
    ∀ (rows : List Nat) (b : Backend F), (∀ i ∈ rows, i < b.cap) →
    ∃ b2, regionFor (t2Body cfg) b rows = Except.ok b2 ∧
      b2.cap = b.cap ∧ b2.tables = b.tables ∧ b2.selectors = b.selectors ∧
      (∀ c r, b2.advice c r =
        if c = cfg.t2.index ∧ r ∈ rows then some ((r : Nat) : F) else b.advice c r) := by
  intro rows
  induction rows with
  | nil =>
    intro b _
    exact ⟨b, rfl, rfl, rfl, rfl, by intro c r; simp⟩
  | cons i is ih =>
    intro b h
    have hi : i < b.cap := h i (List.mem_cons_self i is)
    have hstep : t2Body cfg b i = Except.ok
        { b with
          advice := fun ci r =>
            if ci = cfg.t2.index ∧ r = i then some ((i : Nat) : F) else b.advice ci r } := by
      unfold t2Body
      exact Backend.assign_advice_ok b cfg.t2 i _ hi
    obtain ⟨b2, h2, hcap2, htab2, hsel2, hadv2⟩ :=
      ih { b with
          advice := fun ci r =>
            if ci = cfg.t2.index ∧ r = i then some ((i : Nat) : F) else b.advice ci r }
        (fun j hj => h j (List.mem_cons_of_mem i hj))
    refine ⟨b2, ?_, hcap2, htab2, hsel2, ?_⟩
    · show regionFor (t2Body cfg) b (i :: is) = Except.ok b2
      rw [regionFor, hstep, exceptBind_ok]
      exact h2
    · intro c r
      rw [hadv2 c r]
      by_cases hc : c = cfg.t2.index
      · by_cases hris : r ∈ is
        · simp [hc, hris, List.mem_cons]
        · by_cases hri : r = i
          · subst hri
            simp [hc, hris, List.mem_cons]
          · simp [hc, hris, hri, List.mem_cons]
      · simp [hc, List.mem_cons]

/-- Characterization of the `"t1"` table loop: it writes `F::from(i)` into
the fixed table at each processed row and touches nothing else. -/
theorem regionFor_t1_ok {F : Type} [CommRing F] (cfg : LookupConfig) :
    ∀ (rows : List Nat) (b : Backend F), (∀ i ∈ rows, i < b.cap) →
    ∃ b2, regionFor (t1Body cfg) b rows = Except.ok b2 ∧
      b2.cap = b.cap ∧ b2.advice = b.advice ∧ b2.selectors = b.selectors ∧
      (∀ t r, b2.tables t r =
        if t = cfg.t1.index ∧ r ∈ rows then some ((r : Nat) : F) else b.tables t r) := by
  intro rows
  induction rows with
  | nil =>
    intro b _
    exact ⟨b, rfl, rfl, rfl, rfl, by intro t r; simp⟩
  | cons i is ih =>
    intro b h
    have hi : i < b.cap := h i (List.mem_cons_self i is)
    have hstep : t1Body cfg b i = Except.ok
        { b with
          tables := fun ti r =>
            if ti = cfg.t1.index ∧ r = i then some ((i : Nat) : F) else b.tables ti r } := by
      unfold t1Body
      exact Backend.assign_cell_ok b cfg.t1 i _ hi
    obtain ⟨b2, h2, hcap2, hadv2, hsel2, htab2⟩ :=
      ih { b with
          tables := fun ti r =>
            if ti = cfg.t1.index ∧ r = i then some ((i : Nat) : F) else b.tables ti r }
        (fun j hj => h j (List.mem_cons_of_mem i hj))
    refine ⟨b2, ?_, hcap2, hadv2, hsel2, ?_⟩
    · show regionFor (t1Body cfg) b (i :: is) = Except.ok b2
      rw [regionFor, hstep, exceptBind_ok]
      exact h2
    · intro t r
      rw [htab2 t r]
      by_cases ht : t = cfg.t1.index
      · by_cases hris : r ∈ is
        · simp [ht, hris, List.mem_cons]
        · by_cases hri : r = i
          · subst hri
            simp [ht, hris, List.mem_cons]
          · simp [ht, hris, hri, List.mem_cons]
      · simp [ht, List.mem_cons]

/-- Running a region body over an appended row list is running it over the
first part and then, if that succeeded, over the second. -/
theorem regionFor_append {F : Type} (f : Backend F → Nat → Except Error (Backend F))
    (l1 l2 : List Nat) :
    ∀ b : Backend F, regionFor f b (l1 ++ l2) =
      Except.bind (regionFor f b l1) fun b1 => regionFor f b1 l2 := by
  induction l1 with
  | nil =>
    intro b
    rfl
  | cons i is ih =>
    intro b
    show regionFor f b (i :: (is ++ l2)) = _
    rw [regionFor, regionFor]
    cases hf : f b i with
    | ok b2 => rw [exceptBind_ok, exceptBind_ok, ih b2]
    | error e => rw [exceptBind_err, exceptBind_err, exceptBind_err]

theorem Backend.empty_cap (F : Type) (cap : Nat) : (Backend.empty F cap).cap = cap := rfl

theorem Backend.assign_advice_spec {F : Type} (b : Backend F) (c : AdviceColumn) (row : Nat)
    (v : F) (h : row < b.cap) :
    ∃ b2, b.assign_advice c row v = Except.ok b2 ∧
      b2.cap = b.cap ∧ b2.selectors = b.selectors ∧ b2.tables = b.tables ∧
      ∀ ci r, b2.advice ci r = if ci = c.index ∧ r = row then some v else b.advice ci r :=
  ⟨_, Backend.assign_advice_ok b c row v h, rfl, rfl, rfl, fun _ _ => rfl⟩

theorem Backend.assign_cell_spec {F : Type} (b : Backend F) (t : TableColumn) (row : Nat)
    (v : F) (h : row < b.cap) :
    ∃ b2, b.assign_cell t row v = Except.ok b2 ∧
      b2.cap = b.cap ∧ b2.advice = b.advice ∧ b2.selectors = b.selectors ∧
      ∀ ti r, b2.tables ti r = if ti = t.index ∧ r = row then some v else b.tables ti r :=
  ⟨_, Backend.assign_cell_ok b t row v h, rfl, rfl, rfl, fun _ _ => rfl⟩

/-- Full characterization of `LookupChip::assign` on a fresh trace of
capacity `cap`: when the input fits and the ten reference rows fit, it
succeeds and the resulting trace holds exactly the input values and enabled
selectors on rows `0..len` of columns `a`/`s`, the sentinel `1` at row `0`
and `i` at rows `1..10` of both the shadow column `t2` and the fixed table
`t1`, and nothing anywhere else. -/
theorem assign_ok_spec {F : Type} [CommRing F] (vals : List F) (cap : Nat)
    (hlen : vals.length ≤ cap) (hcap : 10 ≤ cap) :
    ∃ b, LookupChip.assign (theConfig F) (Backend.empty F cap) vals = Except.ok b ∧
      b.cap = cap ∧
      (∀ c r, b.advice c r =
        if c = 0 ∧ r < vals.length then some (vals.getD r 0)
        else if c = 1 ∧ r = 0 then some 1
        else if c = 1 ∧ 1 ≤ r ∧ r < 10 then some ((r : Nat) : F)
        else none) ∧
      (∀ s r, b.selectors s r = decide (s = 0 ∧ r < vals.length)) ∧
      (∀ t r, b.tables t r =
        if t = 0 ∧ r = 0 then some 1
        else if t = 0 ∧ 1 ≤ r ∧ r < 10 then some ((r : Nat) : F)
        else none) := by
  rw [theConfig_eq]
  obtain ⟨b1, h1, hc1, ht1, ha1, hs1⟩ :=
    regionFor_values_ok (⟨⟨0⟩, ⟨0⟩, ⟨0⟩, ⟨1⟩⟩ : LookupConfig) vals (List.range vals.length)
      (Backend.empty F cap)
      (by intro j hj; rw [List.mem_range] at hj; exact lt_of_lt_of_le hj hlen)
  have hb1 : b1.cap = cap := by rw [hc1]; rfl
  obtain ⟨b2, h2, hc2, hs2, ht2, ha2⟩ :=
    Backend.assign_advice_spec b1 ⟨1⟩ 0 (1 : F) (by rw [hb1]; omega)
  have hb2 : b2.cap = cap := by rw [hc2, hb1]
  obtain ⟨b3, h3, hc3, ht3, hs3, ha3⟩ :=
    regionFor_t2_ok (⟨⟨0⟩, ⟨0⟩, ⟨0⟩, ⟨1⟩⟩ : LookupConfig) (List.range' 1 9) b2
      (by intro j hj; rw [List.mem_range'_1] at hj; rw [hb2]; omega)
  have hb3 : b3.cap = cap := by rw [hc3, hb2]
  obtain ⟨b4, h4, hc4, ha4, hs4, ht4⟩ :=
    Backend.assign_cell_spec b3 ⟨0⟩ 0 (1 : F) (by rw [hb3]; omega)
  have hb4 : b4.cap = cap := by rw [hc4, hb3]
  obtain ⟨b5, h5, hc5, ha5, hs5, ht5⟩ :=
    regionFor_t1_ok (⟨⟨0⟩, ⟨0⟩, ⟨0⟩, ⟨1⟩⟩ : LookupConfig) (List.range' 1 9) b4
      (by intro j hj; rw [List.mem_range'_1] at hj; rw [hb4]; omega)
  refine ⟨b5, ?_, ?_, ?_, ?_, ?_⟩
  · simp only [LookupChip.assign, h1, h2, h3, h4, h5, exceptBind_ok]
  · rw [hc5, hb4]
  · intro c r
    rw [ha5, ha4, ha3 c r, ha2 c r, ha1 c r]
    simp only [List.mem_range'_1, List.mem_range, Backend.empty]
    split_ifs <;> first | rfl | omega
  · intro s r
    rw [hs5, hs4, hs3, hs2, hs1 s r]
    simp only [List.mem_range, Backend.empty]
    by_cases h : s = 0 ∧ r < vals.length
    · simp [h]
    · simp [h]
  · intro t r
    rw [ht5 t r, ht4 t r, ht3, ht2, ht1]
    simp only [List.mem_range'_1, Backend.empty]
    split_ifs <;> first | rfl | omega

theorem rotRow_zero (n row : Nat) (h : row < n) : rotRow n row 0 = row := by
  unfold rotRow
  rw [Int.add_zero, Int.emod_eq_of_lt (Int.natCast_nonneg row) (by exact_mod_cast h),
    Int.toNat_natCast]

theorem eval_blendExpr {F : Type} [CommRing F] (b : Backend F) (n row : Nat) :
    Expression.eval b n row (blendExpr F) =
      b.selectorVal 0 row * b.adviceVal 0 (rotRow n row 0) +
        (1 - b.selectorVal 0 row) * 1 := by
  simp only [blendExpr, Expression.eval]
  ring

theorem eval_tableExpr {F : Type} [CommRing F] (b : Backend F) (n row : Nat) :
    Expression.eval b n row (tableExpr F) = b.adviceVal 1 (rotRow n row 0) := by
  simp only [tableExpr, Expression.eval]

/-- The registered `lookup_any` argument holds at a row exactly when the
blended input value at that row occurs as the table expression's value at
some row of the trace. -/
theorem lookupSatAt_theLookup {F : Type} [CommRing F] [DecidableEq F] (b : Backend F)
    (n row : Nat) :
    lookupSatAt b n ⟨"lookup_any", [(blendExpr F, tableExpr F)]⟩ row = true ↔
      ∃ r2, r2 < n ∧
        Expression.eval b n row (blendExpr F) = Expression.eval b n r2 (tableExpr F) := by
  unfold lookupSatAt
  rw [List.any_eq_true]
  constructor
  · rintro ⟨r2, hr2, hall⟩
    rw [List.mem_range] at hr2
    simp only [List.all_cons, List.all_nil, Bool.and_true, decide_eq_true_eq] at hall
    exact ⟨r2, hr2, hall⟩
  · rintro ⟨r2, hr2, heq⟩
    refine ⟨r2, List.mem_range.mpr hr2, ?_⟩
    simp only [List.all_cons, List.all_nil, Bool.and_true, decide_eq_true_eq]
    exact heq

/-- The whole check on the configured constraint system is: the single
registered `lookup_any` argument holds at every row. -/
theorem lookupsSat_theCS_iff {F : Type} [CommRing F] [DecidableEq F] (b : Backend F)
    (n : Nat) :
    lookupsSat b n (theCS F) = true ↔
      ∀ row, row < n →
        lookupSatAt b n ⟨"lookup_any", [(blendExpr F, tableExpr F)]⟩ row = true := by
  unfold lookupsSat
  rw [theCS_lookups]
  simp [List.all_eq_true, List.mem_range]

/-- C3 (amended): the live-column lookup check reports satisfied if and only
if every value at a selector-enabled row appears somewhere among the rows of
the effective (zero-padded) reference column — all `n` rows of the trace,
not only the ten populated ones; consequently an input containing `0` at a
selected row passes, since `0` occurs at the unassigned reference rows. -/
theorem satisfied_iff_every_value_in_refcol {F : Type} [CommRing F] [DecidableEq F]
    (vals : List F) (cap n : Nat) (hlen : vals.length ≤ cap) (hcap : 10 ≤ cap)
    (hlen2 : vals.length ≤ n) (hn : 0 < n) :
    ∃ b, LookupChip.assign (theConfig F) (Backend.empty F cap) vals = Except.ok b ∧
      runWith cap n vals = Except.ok (lookupsSat b n (theCS F)) ∧
      (lookupsSat b n (theCS F) = true ↔
        ∀ i, i < vals.length →
          ∃ r2, r2 < n ∧ b.adviceVal (theConfig F).t2.index r2 = vals.getD i 0) := by
  obtain ⟨b, hb, hcapb, hadv, hsel, htab⟩ := assign_ok_spec vals cap hlen hcap
  have ht2idx : (theConfig F).t2.index = 1 := rfl
  rw [ht2idx]
  have hval0 : ∀ i, i < vals.length → b.adviceVal 0 i = vals.getD i 0 := by
    intro i hi
    unfold Backend.adviceVal
    rw [hadv 0 i]
    simp [hi]
  have href0 : b.adviceVal 1 0 = 1 := by
    unfold Backend.adviceVal
    rw [hadv 1 0]
    simp
  refine ⟨b, hb, ?_, ?_⟩
  · simp only [runWith, hb]
  · rw [lookupsSat_theCS_iff]
    constructor
    · intro hall i hi
      have hin : i < n := lt_of_lt_of_le hi hlen2
      have hrow := hall i hin
      rw [lookupSatAt_theLookup] at hrow
      obtain ⟨r2, hr2, heq⟩ := hrow
      rw [eval_blendExpr, rotRow_zero n i hin, eval_tableExpr, rotRow_zero n r2 hr2] at heq
      have hs : b.selectors 0 i = true := by
        rw [hsel]
        simp [hi]
      rw [Backend.selectorVal, hs] at heq
      simp only [if_true, one_mul, sub_self, zero_mul, add_zero] at heq
      rw [hval0 i hi] at heq
      exact ⟨r2, hr2, heq.symm⟩
    · intro hmem row hrow
      rw [lookupSatAt_theLookup]
      by_cases hon : row < vals.length
      · obtain ⟨r2, hr2, hval⟩ := hmem row hon
        refine ⟨r2, hr2, ?_⟩
        rw [eval_blendExpr, rotRow_zero n row hrow, eval_tableExpr, rotRow_zero n r2 hr2]
        have hs : b.selectors 0 row = true := by
          rw [hsel]
          simp [hon]
        rw [Backend.selectorVal, hs]
        simp only [if_true, one_mul, sub_self, zero_mul, add_zero]
        rw [hval0 row hon, hval]
      · refine ⟨0, hn, ?_⟩
        rw [eval_blendExpr, rotRow_zero n row hrow, eval_tableExpr, rotRow_zero n 0 hn]
        have hs : b.selectors 0 row = false := by
          rw [hsel]
          simp [hon]
        rw [Backend.selectorVal, hs, href0]
        simp

/-- C3 witness: the amended membership equivalence instantiated at the
concrete input `[0, 5]` over `bn256::Fr` with a 32-row trace. -/
theorem satisfied_iff_every_value_in_refcol_witness :
    ∃ b, LookupChip.assign (theConfig Fp) (Backend.empty Fp 32) [(0 : Fp), 5] =
        Except.ok b ∧
      runWith 32 32 [(0 : Fp), 5] = Except.ok (lookupsSat b 32 (theCS Fp)) ∧
      (lookupsSat b 32 (theCS Fp) = true ↔
        ∀ i, i < ([(0 : Fp), 5] : List Fp).length →
          ∃ r2, r2 < 32 ∧
            b.adviceVal (theConfig Fp).t2.index r2 = ([(0 : Fp), 5] : List Fp).getD i 0) :=
  satisfied_iff_every_value_in_refcol [(0 : Fp), 5] 32 32 (by decide) (by decide)
    (by decide) (by decide)

/-- C3 counterexample: the input `[0]` puts `0` at a selected row while `0`
does not occur among rows `0..10` of the reference column, yet the check
reports satisfied — refuting both the claimed equivalence with rows `0..10`
and the claim that such an input must fail. -/
theorem zero_at_selected_row_passes :
    mockRun 5 [(0 : Fp)] = Except.ok true ∧
    selAt 32 [(0 : Fp)] 0 = true ∧
    valAt 32 [(0 : Fp)] 0 = 0 ∧
    ((List.range 10).all fun r => decide (refColVal 32 [(0 : Fp)] r ≠ 0)) = true :=
  ⟨by decide, by decide, by decide, by decide⟩

/-- C1 counterexample: at `k = 5` on input `[0,1,2,3]` the check does not
report UNSATISFIED — it reports satisfied — and row 0 (value 0, selector on)
does not violate the lookup constraint. -/
theorem test_input_not_unsatisfied :
    mockRun 5 c1Input ≠ Except.ok false ∧
    selAt 32 c1Input 0 = true ∧
    valAt 32 c1Input 0 = 0 ∧
    rowSatisfied 32 32 c1Input 0 = true :=
  ⟨by decide, by decide, by decide, by decide⟩

/-- C1 (amended): running the satisfiability check with `k = 5` (a 2^5-row
trace) on `[0, 1, 2, 3]` reports SATISFIED overall: row 0 (value 0,
selector on) satisfies the lookup-membership constraint because `0` occurs
among the zero-defaulted rows of the live reference column, and rows 1-3
satisfy it as well. -/
theorem test_input_reports_satisfied :
    mockRun 5 c1Input = Except.ok true ∧
    ((List.range 4).all fun r => rowSatisfied 32 32 c1Input r) = true ∧
    (∃ r2, r2 < 32 ∧ 10 ≤ r2 ∧ refColVal 32 c1Input r2 = 0) :=
  ⟨by decide, by decide, ⟨10, by decide, by decide, by decide⟩⟩

/-- C2: for the circuit built at `k = 5` with input `[0, 1, 2, 3]`, the
mock satisfiability check succeeds: every row of the shadow reference column
beyond the 10 explicitly assigned ones reads the field's zero element, so
the value `0` at selected row 0 is a member of the effective reference set
and no constraint is violated. -/
theorem zero_padding_makes_test_pass :
    mockRun 5 c1Input = Except.ok true ∧
    ((List.range 32).all fun r =>
      !decide (10 ≤ r) || decide (refColVal 32 c1Input r = 0)) = true ∧
    selAt 32 c1Input 0 = true ∧
    valAt 32 c1Input 0 = 0 ∧
    rowSatisfied 32 32 c1Input 0 = true :=
  ⟨by decide, by decide, by decide, by decide, by decide⟩

/-- C4: configuration registers the lookup constraint with exactly the
blended input expression `selector * value + (1 - selector) * 1` against the
current-rotation query of the shadow advice column, and the checker demands
that the blended value be a member of the set of reference-column entries
taken over all rows of the trace. -/
theorem configure_registers_blended_lookup {F : Type} [CommRing F] [DecidableEq F] :
    (theCS F).lookups = [⟨"lookup_any", [(blendExpr F, tableExpr F)]⟩] ∧
    (∀ (b : Backend F) (n row : Nat),
      Expression.eval b n row (blendExpr F) =
        b.selectorVal (theConfig F).s.index row *
            b.adviceVal (theConfig F).a.index (rotRow n row 0) +
          (1 - b.selectorVal (theConfig F).s.index row) * 1) ∧
    (∀ (b : Backend F) (n row : Nat),
      Expression.eval b n row (tableExpr F) =
        b.adviceVal (theConfig F).t2.index (rotRow n row 0)) ∧
    (∀ n row : Nat, row < n → rotRow n row 0 = row) ∧
    (∀ (b : Backend F) (n row : Nat),
      lookupSatAt b n ⟨"lookup_any", [(blendExpr F, tableExpr F)]⟩ row = true ↔
        ∃ r2, r2 < n ∧
          Expression.eval b n row (blendExpr F) =
            Expression.eval b n r2 (tableExpr F)) := by
  refine ⟨theCS_lookups F, ?_, ?_, rotRow_zero, lookupSatAt_theLookup⟩
  · intro b n row
    exact eval_blendExpr b n row
  · intro b n row
    exact eval_tableExpr b n row

/-- C4 witness: the registered-lookup description instantiated over
`bn256::Fr`, with its rotation fact applied at row 7 of a 32-row trace. -/
theorem configure_registers_blended_lookup_witness :
    (theCS Fp).lookups = [⟨"lookup_any", [(blendExpr Fp, tableExpr Fp)]⟩] ∧
    rotRow 32 7 0 = 7 :=
  ⟨(@configure_registers_blended_lookup Fp _ _).1,
    (@configure_registers_blended_lookup Fp _ _).2.2.2.1 32 7 (by decide)⟩

/-- C5: at every row where the selector is off (every row at or beyond the
input length), the registered lookup constraint is satisfied regardless of
the value column's content: the blended expression evaluates to the
constant `1`, and the assignment step places `1` at row 0 of the reference
column. -/
theorem selector_off_row_always_satisfied {F : Type} [CommRing F] [DecidableEq F]
    (vals : List F) (cap n row : Nat) (f : Nat → Option F)
    (hlen : vals.length ≤ cap) (hcap : 10 ≤ cap) (hn : 0 < n)
    (hrow : vals.length ≤ row) :
    ∃ b, LookupChip.assign (theConfig F) (Backend.empty F cap) vals = Except.ok b ∧
      b.selectors (theConfig F).s.index row = false ∧
      Expression.eval (withValues (theConfig F) b f) n row (blendExpr F) = 1 ∧
      (withValues (theConfig F) b f).adviceVal (theConfig F).t2.index 0 = 1 ∧
      lookupSatAt (withValues (theConfig F) b f) n
        ⟨"lookup_any", [(blendExpr F, tableExpr F)]⟩ row = true := by
  obtain ⟨b, hb, hcapb, hadv, hsel, htab⟩ := assign_ok_spec vals cap hlen hcap
  have hsidx : (theConfig F).s.index = 0 := rfl
  have ht2idx : (theConfig F).t2.index = 1 := rfl
  rw [hsidx, ht2idx]
  have hs : b.selectors 0 row = false := by
    rw [hsel]
    simp only [decide_eq_false_iff_not, not_and]
    intro _
    omega
  have hwsel : (withValues (theConfig F) b f).selectors = b.selectors := rfl
  have hwadv1 : ∀ r, (withValues (theConfig F) b f).advice 1 r = b.advice 1 r := by
    intro r
    unfold withValues
    simp [theConfig_eq]
  have hblend :
      Expression.eval (withValues (theConfig F) b f) n row (blendExpr F) = 1 := by
    rw [eval_blendExpr]
    have hz : (withValues (theConfig F) b f).selectorVal 0 row = 0 := by
      rw [Backend.selectorVal, hwsel, hs]
      simp
    rw [hz]
    ring
  have href : (withValues (theConfig F) b f).adviceVal 1 0 = 1 := by
    rw [Backend.adviceVal, hwadv1 0, hadv 1 0]
    simp
  refine ⟨b, hb, hs, hblend, href, ?_⟩
  rw [lookupSatAt_theLookup]
  refine ⟨0, hn, ?_⟩
  rw [hblend, eval_tableExpr, rotRow_zero n 0 hn, href]

/-- C5 witness: the degenerate-branch theorem instantiated over `bn256::Fr`
with input `[2]`, capacity 32, a 32-row trace, row 5 and an arbitrary value
column writing `7` everywhere. -/
theorem selector_off_row_always_satisfied_witness :
    ∃ b, LookupChip.assign (theConfig Fp) (Backend.empty Fp 32) [(2 : Fp)] =
        Except.ok b ∧
      b.selectors (theConfig Fp).s.index 5 = false ∧
      Expression.eval (withValues (theConfig Fp) b fun _ => some 7) 32 5 (blendExpr Fp) = 1 ∧
      (withValues (theConfig Fp) b fun _ => some 7).adviceVal (theConfig Fp).t2.index 0 = 1 ∧
      lookupSatAt (withValues (theConfig Fp) b fun _ => some 7) 32
        ⟨"lookup_any", [(blendExpr Fp, tableExpr Fp)]⟩ 5 = true :=
  selector_off_row_always_satisfied [(2 : Fp)] 32 32 5 (fun _ => some 7) (by decide)
    (by decide) (by decide) (by decide)

/-- C6: the assignment step writes the identical value sequence — `1` at
row 0 and `i` at each row `i` for `i` in `1..10` — into both storage
backends of the reference set, the live shadow column `t2` and the fixed
lookup table `t1`, so the two backends hold equal values at every
explicitly assigned row. -/
theorem reference_column_and_table_agree {F : Type} [CommRing F] (vals : List F)
    (cap : Nat) (hlen : vals.length ≤ cap) (hcap : 10 ≤ cap) :
    ∃ b, LookupChip.assign (theConfig F) (Backend.empty F cap) vals = Except.ok b ∧
      b.advice (theConfig F).t2.index 0 = some 1 ∧
      b.tables (theConfig F).t1.index 0 = some 1 ∧
      (∀ i, 1 ≤ i → i < 10 →
        b.advice (theConfig F).t2.index i = some ((i : Nat) : F) ∧
        b.tables (theConfig F).t1.index i = some ((i : Nat) : F)) ∧
      (∀ i, i < 10 →
        b.advice (theConfig F).t2.index i = b.tables (theConfig F).t1.index i) := by
  obtain ⟨b, hb, hcapb, hadv, hsel, htab⟩ := assign_ok_spec vals cap hlen hcap
  have ht2idx : (theConfig F).t2.index = 1 := rfl
  have ht1idx : (theConfig F).t1.index = 0 := rfl
  rw [ht2idx, ht1idx]
  have hadv0 : b.advice 1 0 = some 1 := by
    rw [hadv 1 0]
    simp
  have htab0 : b.tables 0 0 = some 1 := by
    rw [htab 0 0]
    simp
  have hadvi : ∀ i, 1 ≤ i → i < 10 → b.advice 1 i = some ((i : Nat) : F) := by
    intro i h1 h10
    rw [hadv 1 i]
    have : i ≠ 0 := by omega
    simp [this, h1, h10]
  have htabi : ∀ i, 1 ≤ i → i < 10 → b.tables 0 i = some ((i : Nat) : F) := by
    intro i h1 h10
    rw [htab 0 i]
    have : i ≠ 0 := by omega
    simp [this, h1, h10]
  refine ⟨b, hb, hadv0, htab0, fun i h1 h10 => ⟨hadvi i h1 h10, htabi i h1 h10⟩, ?_⟩
  intro i h10
  by_cases h0 : i = 0
  · subst h0
    rw [hadv0, htab0]
  · have h1 : 1 ≤ i := by omega
    rw [hadvi i h1 h10, htabi i h1 h10]

/-- C6 witness: the two-backend agreement instantiated over `bn256::Fr`
with input `[3]` and capacity 32. -/
theorem reference_column_and_table_agree_witness :
    ∃ b, LookupChip.assign (theConfig Fp) (Backend.empty Fp 32) [(3 : Fp)] =
        Except.ok b ∧
      b.advice (theConfig Fp).t2.index 0 = some 1 ∧
      b.tables (theConfig Fp).t1.index 0 = some 1 ∧
      (∀ i, 1 ≤ i → i < 10 →
        b.advice (theConfig Fp).t2.index i = some ((i : Nat) : Fp) ∧
        b.tables (theConfig Fp).t1.index i = some ((i : Nat) : Fp)) ∧
      (∀ i, i < 10 →
        b.advice (theConfig Fp).t2.index i = b.tables (theConfig Fp).t1.index i) :=
  reference_column_and_table_agree [(3 : Fp)] 32 (by decide) (by decide)

/-- C7: the assignment step writes `values[i]` into the value column and
enables the selector at each row `i < len(values)`; every other row keeps
the backend default (selector off, value cell unassigned), no column other
than the value column and the shadow reference column is ever written, and
the reference column and fixed table are untouched beyond their populated
range `0..10`. -/
theorem assign_frame_effect {F : Type} [CommRing F] (vals : List F) (cap : Nat)
    (hlen : vals.length ≤ cap) (hcap : 10 ≤ cap) :
    ∃ b, LookupChip.assign (theConfig F) (Backend.empty F cap) vals = Except.ok b ∧
      (∀ i, i < vals.length →
        b.advice (theConfig F).a.index i = some (vals.getD i 0) ∧
        b.selectors (theConfig F).s.index i = true) ∧
      (∀ i, vals.length ≤ i →
        b.selectors (theConfig F).s.index i = false ∧
        b.advice (theConfig F).a.index i = none) ∧
      (∀ c r, c ≠ (theConfig F).a.index → c ≠ (theConfig F).t2.index →
        b.advice c r = none) ∧
      (∀ s r, s ≠ (theConfig F).s.index → b.selectors s r = false) ∧
      (∀ r, 10 ≤ r → b.advice (theConfig F).t2.index r = none) ∧
      (∀ t r, 10 ≤ r → b.tables t r = none) := by
  obtain ⟨b, hb, hcapb, hadv, hsel, htab⟩ := assign_ok_spec vals cap hlen hcap
  have haidx : (theConfig F).a.index = 0 := rfl
  have hsidx : (theConfig F).s.index = 0 := rfl
  have ht2idx : (theConfig F).t2.index = 1 := rfl
  rw [haidx, hsidx, ht2idx]
  refine ⟨b, hb, ?_, ?_, ?_, ?_, ?_, ?_⟩
  · intro i hi
    constructor
    · rw [hadv 0 i]
      simp [hi]
    · rw [hsel 0 i]
      simp [hi]
  · intro i hi
    constructor
    · rw [hsel 0 i]
      simp only [decide_eq_false_iff_not, not_and]
      intro _
      omega
    · rw [hadv 0 i]
      have hni : ¬i < vals.length := by omega
      simp [hni]
  · intro c r hc0 hc1
    rw [hadv c r]
    simp [hc0, hc1]
  · intro s r hs0
    rw [hsel s r]
    simp only [decide_eq_false_iff_not, not_and]
    intro h
    exact absurd h hs0
  · intro r hr
    rw [hadv 1 r]
    have h0 : r ≠ 0 := by omega
    have h10 : ¬r < 10 := by omega
    simp [h0, h10]
  · intro t r hr
    rw [htab t r]
    have h0 : r ≠ 0 := by omega
    have h10 : ¬r < 10 := by omega
    simp [h0, h10]

/-- C7 witness: the frame characterization instantiated over `bn256::Fr`
with input `[4, 9]` and capacity 32. -/
theorem assign_frame_effect_witness :
    ∃ b, LookupChip.assign (theConfig Fp) (Backend.empty Fp 32) [(4 : Fp), 9] =
        Except.ok b ∧
      (∀ i, i < ([(4 : Fp), 9] : List Fp).length →
        b.advice (theConfig Fp).a.index i = some (([(4 : Fp), 9] : List Fp).getD i 0) ∧
        b.selectors (theConfig Fp).s.index i = true) ∧
      (∀ i, ([(4 : Fp), 9] : List Fp).length ≤ i →
        b.selectors (theConfig Fp).s.index i = false ∧
        b.advice (theConfig Fp).a.index i = none) ∧
      (∀ c r, c ≠ (theConfig Fp).a.index → c ≠ (theConfig Fp).t2.index →
        b.advice c r = none) ∧
      (∀ s r, s ≠ (theConfig Fp).s.index → b.selectors s r = false) ∧
      (∀ r, 10 ≤ r → b.advice (theConfig Fp).t2.index r = none) ∧
      (∀ t r, 10 ≤ r → b.tables t r = none) :=
  assign_frame_effect [(4 : Fp), 9] 32 (by decide) (by decide)

/-- C8: an input sequence whose length equals the row capacity is assigned
successfully, while one of length capacity + 1 fails with `CapacityExceeded`
and the whole build aborts, so the checker never receives a trace. -/
theorem capacity_boundary {F : Type} [CommRing F] [DecidableEq F] (cap : Nat)
    (vals vals2 : List F) (hcap : 10 ≤ cap) (h1 : vals.length = cap)
    (h2 : vals2.length = cap + 1) :
    (∃ b, LookupChip.assign (theConfig F) (Backend.empty F cap) vals = Except.ok b) ∧
    LookupChip.assign (theConfig F) (Backend.empty F cap) vals2 =
      Except.error Error.CapacityExceeded ∧
    runWith cap cap vals2 = Except.error Error.CapacityExceeded := by
  have herr : regionFor (valuesBody (theConfig F) vals2) (Backend.empty F cap)
      (List.range vals2.length) = Except.error Error.CapacityExceeded := by
    rw [h2, List.range_succ, regionFor_append]
    obtain ⟨b1, hb1, hc1, _, _, _⟩ :=
      regionFor_values_ok (theConfig F) vals2 (List.range cap) (Backend.empty F cap)
        (by intro j hj; rw [List.mem_range] at hj; exact hj)
    have hb1cap : b1.cap = cap := by rw [hc1]; rfl
    rw [hb1, exceptBind_ok, regionFor]
    have hfail : valuesBody (theConfig F) vals2 b1 cap =
        Except.error Error.CapacityExceeded := by
      unfold valuesBody
      rw [Selector.enable_err _ _ _ (by omega), exceptBind_err]
    rw [hfail, exceptBind_err]
  have hassign : LookupChip.assign (theConfig F) (Backend.empty F cap) vals2 =
      Except.error Error.CapacityExceeded := by
    unfold LookupChip.assign
    rw [herr, exceptBind_err]
  refine ⟨?_, hassign, ?_⟩
  · obtain ⟨b, hb, _⟩ := assign_ok_spec vals cap (le_of_eq h1) hcap
    exact ⟨b, hb⟩
  · unfold runWith
    rw [hassign]

/-- C8 witness: capacity 10 accepts a 10-element input and rejects an
11-element input with `CapacityExceeded`, over `bn256::Fr`. -/
theorem capacity_boundary_witness :
    (∃ b, LookupChip.assign (theConfig Fp) (Backend.empty Fp 10)
        (List.replicate 10 (1 : Fp)) = Except.ok b) ∧
    LookupChip.assign (theConfig Fp) (Backend.empty Fp 10)
        (List.replicate 11 (1 : Fp)) = Except.error Error.CapacityExceeded ∧
    runWith 10 10 (List.replicate 11 (1 : Fp)) = Except.error Error.CapacityExceeded :=
  capacity_boundary 10 (List.replicate 10 (1 : Fp)) (List.replicate 11 (1 : Fp))
    (by decide) (by decide) (by decide)

/-- C9: configuration is a pure, deterministic function of the initial
(empty) constraint-system state: two invocations return identical column,
selector and table handles and an identical constraint descriptor. -/
theorem configure_deterministic {F : Type} [CommRing F] :
    LookupChip.configure (ConstraintSystem.empty F) =
      LookupChip.configure (ConstraintSystem.empty F) ∧
    (LookupChip.configure (ConstraintSystem.empty F)).1 = ⟨⟨0⟩, ⟨0⟩, ⟨0⟩, ⟨1⟩⟩ ∧
    (LookupChip.configure (ConstraintSystem.empty F)).2 =
      ⟨2, 1, 1, [⟨0⟩], [⟨"lookup_any", [(blendExpr F, tableExpr F)]⟩]⟩ :=
  ⟨rfl, rfl, rfl⟩

/-- C10: exactly one lookup constraint is registered; it relates the value
column to the live shadow column at the current rotation under selector
control, and no registered lookup expression references the fixed table
(the fixed-table variant exists only in comments). -/
theorem single_lookup_no_fixed_table {F : Type} [CommRing F] :
    (theCS F).lookups.length = 1 ∧
    (theCS F).lookups = [⟨"lookup_any", [(blendExpr F, tableExpr F)]⟩] ∧
    tableExpr F = Expression.Advice (theConfig F).t2 0 ∧
    blendExpr F =
      Expression.Sum
        (Expression.Product (Expression.Selector (theConfig F).s)
          (Expression.Advice (theConfig F).a 0))
        (Expression.Product
          (Expression.Sum (Expression.Constant 1)
            (Expression.Negated (Expression.Selector (theConfig F).s)))
          (Expression.Constant 1)) ∧
    ((theCS F).lookups.all fun l => l.pairs.all fun p =>
      !p.1.referencesFixedTable && !p.2.referencesFixedTable) = true :=
  ⟨rfl, rfl, rfl, rfl, rfl⟩

end LookupPadding
